import Mathlib

/-!
Verification development for the MCQ generator (`src/app.py`).

The core under study is `generate_mcqs(text, num_questions)`.  Python strings
are embedded as `List Char`; the spaCy annotator and the `random` module are
external collaborators, embedded as parameter structures (`Annotator`,
`RandGen`) whose fields carry the documented contracts of the Python
standard-library primitives (`random.sample`, `random.choice`,
`random.shuffle`).  Randomness call sites are distinguished by a seed
argument threaded per sampled-sentence index, so every concrete execution
trace of the Python code is an instance of some `RandGen`.
-/

/-- Python strings are modelled as lists of characters. -/
abbrev Str := List Char

/-- Tokens as used by `generate_mcqs`: the code only reads `token.lemma_` and
`token.pos_`. -/
structure Token where
  lemma_ : Str
  pos_ : Str
deriving DecidableEq, Repr

/-- The external spaCy pipeline `nlp`: applied to a string it yields a document
whose sentences (raw `sent.text` values) and tokens the code reads.
`generate_mcqs` calls `nlp` both on the full text and on each sampled
sentence, hence both fields are functions of the input string. -/
structure Annotator where
  sents : Str → List Str
  tokens : Str → List Token

/-- An MCQ record as produced by `generate_mcqs`:
a tuple `(question_stem, answer_choices, correct_answer_letter)`. -/
structure MCQ where
  stem : Str
  choices : List Str
  correct : Char
deriving DecidableEq, Repr

/-- Insertion scan behind `dict.fromkeys(xs)`: keep an element when it has not
been seen yet, in order of first occurrence. -/
def pyDedupAux (seen : List Str) : List Str → List Str
  | [] => []
  | x :: xs => if x ∈ seen then pyDedupAux seen xs else x :: pyDedupAux (x :: seen) xs

/-- Python `dict.fromkeys(xs)` key order: first occurrence of each element is
kept, later duplicates dropped. -/
def pyDedup (l : List Str) : List Str := pyDedupAux [] l

/-- Cased letters, over the repertoire this development evaluates (ASCII
letters and the Greek letter block); used by the Final_Sigma context test of
CPython's `str.lower()`. -/
def pyCased (c : Char) : Bool :=
  c.isAlpha || (0x391 ≤ c.toNat && c.toNat ≤ 0x3A9) ||
    (0x3B1 ≤ c.toNat && c.toNat ≤ 0x3C9)

/-- Case-ignorable characters (restricted repertoire): the apostrophe
(U+0027) and the combining dot above (U+0307) produced by lowering İ. -/
def pyCaseIgnorable (c : Char) : Bool :=
  c.toNat = 0x27 || c.toNat = 0x307

/-- Scan of the characters before a candidate sigma (most recent first):
Final_Sigma requires a cased letter before it, skipping case-ignorable
characters. -/
def finalSigmaBefore : List Char → Bool
  | [] => false
  | c :: rest => if pyCaseIgnorable c then finalSigmaBefore rest else pyCased c

/-- Scan of the characters after a candidate sigma: Final_Sigma requires that
no cased letter follow it, skipping case-ignorable characters. -/
def finalSigmaAfter : List Char → Bool
  | [] => false
  | c :: rest => if pyCaseIgnorable c then finalSigmaAfter rest else pyCased c

/-- Lowercase mapping of one character outside the sigma special case: İ
(U+0130) maps to the two characters i plus combining dot above, Greek capital
letters map into the small-letter block (capital sigma to non-final σ), ASCII
is mapped by `Char.toLower`, and characters outside the modelled repertoire
are returned unchanged. -/
def pyLowerChar (c : Char) : List Char :=
  if c.toNat = 0x130 then [Char.ofNat 0x69, Char.ofNat 0x307]
  else if 0x391 ≤ c.toNat && c.toNat ≤ 0x3A9 && c.toNat != 0x3A2 then
    [Char.ofNat (c.toNat + 0x20)]
  else [c.toLower]

/-- Left-to-right scan behind `str.lower()`, keeping the already-scanned
characters (most recent first) as the context for the Final_Sigma rule:
a capital sigma (U+03A3) lowers to the final form ς (U+03C2) exactly when a
cased letter precedes and none follows. -/
def pyLowerAux (prev : List Char) : List Char → List Char
  | [] => []
  | c :: rest =>
      (if c.toNat = 0x3A3 && finalSigmaBefore prev && !finalSigmaAfter rest
       then [Char.ofNat 0x3C2]
       else pyLowerChar c) ++ pyLowerAux (c :: prev) rest

/-- Python `str.lower()`: CPython applies the full Unicode lowercase mapping
with the context-sensitive Final_Sigma rule, so the result is not a
character-wise image of the input and may even differ from it in length. -/
def pyLower (s : Str) : Str := pyLowerAux [] s

/-- Python `str.strip()`: remove leading and trailing whitespace. -/
def pyStrip (s : Str) : Str :=
  ((s.dropWhile Char.isWhitespace).reverse.dropWhile Char.isWhitespace).reverse

/-- Python `hay.find(needle)`: index of the first occurrence, as an `Option`
(Python returns `-1` when absent). -/
def findSub : Str → Str → Option Nat
  | hay, needle =>
    if needle.isPrefixOf hay then some 0
    else
      match hay with
      | [] => none
      | _ :: t => (findSub t needle).map (· + 1)

/-- Python `s.replace(old, new, 1)`: replace the first exact occurrence of
`old` by `new`; if `old` does not occur, return `s` unchanged. -/
def replaceOnce (s old new : Str) : Str :=
  match findSub s old with
  | some i => s.take i ++ new ++ s.drop (i + old.length)
  | none => s

/-- The blank marker inserted into question stems. -/
def blankMarker : Str := "______".toList

/-- The sentinel placeholder used to pad the distractor pool. -/
def sentinel : Str := "[distractor]".toList

/-- Extraction `[token.lemma_ for token in doc if token.pos_ in ("NOUN", "PROPN")]`. -/
def nounLemmas (toks : List Token) : List Str :=
  (toks.filter (fun t => t.pos_ = "NOUN".toList ∨ t.pos_ = "PROPN".toList)).map Token.lemma_

/-- The comprehension `[w for w in dict.fromkeys(ws) if w]`: deduplicate
preserving first-seen order, then drop empty strings. -/
def nounPool (toks : List Token) : List Str :=
  (pyDedup (nounLemmas toks)).filter (fun w => w ≠ [])

/-- The global noun pool `global_nouns` of `generate_mcqs`. -/
def globalNouns (A : Annotator) (text : Str) : List Str :=
  nounPool (A.tokens text)

/-- The per-sentence noun pool `nouns` of the loop body (`nlp(sentence)` is
re-applied to the sentence text). -/
def localNouns (A : Annotator) (sentence : Str) : List Str :=
  nounPool (A.tokens sentence)

/-- Scan of the keys of `Counter(l)` keeping the first key whose count in `l`
is strictly maximal so far; this is the tie-breaking behaviour of
`Counter.most_common` (a stable descending sort by count). -/
def argmaxCount (l : List Str) : List Str → Str → Str
  | [], best => best
  | k :: ks, best =>
      if l.count best < l.count k then argmaxCount l ks k else argmaxCount l ks best

/-- Python `Counter(l).most_common(1)[0][0]`: among the keys of the counter (in
first-seen order) the first one of maximal count.  On an empty list Python
would raise `IndexError`; callers guard against that, and the total embedding
returns the empty string there. -/
def mostCommon (l : List Str) : Str :=
  match pyDedup l with
  | [] => []
  | k :: ks => argmaxCount l ks k

/-- The `random` module as consumed by `generate_mcqs`, bundled with the
contracts documented for `random.sample` (k items without replacement from the
population, so the result has length k and draws members of the population),
`random.choice` (a member of the non-empty sequence) and `random.shuffle`
(a permutation in place).  `choice` and `shuffle` take a seed argument so
distinct call sites and loop iterations may draw differently. -/
structure RandGen where
  sample : List Str → Nat → List Str
  choice : Nat → List Str → Str
  shuffle : Nat → List Str → List Str
  sample_length : ∀ l n, n ≤ l.length → (sample l n).length = n
  sample_mem : ∀ l n x, x ∈ sample l n → x ∈ l
  choice_mem : ∀ i l, l ≠ [] → choice i l ∈ l
  shuffle_perm : ∀ i l, (shuffle i l).Perm l

/-- A deterministic instance of the `random` contracts: `sample` takes a
prefix, `choice` the head, `shuffle` does nothing. -/
def detRand : RandGen where
  sample := fun l n => l.take n
  choice := fun _ l => l.headD []
  shuffle := fun _ l => l
  sample_length := fun l n h => by simp [List.length_take, Nat.min_eq_left h]
  sample_mem := fun l n x h => List.mem_of_mem_take h
  choice_mem := fun i l h => by
    cases l with
    | nil => exact absurd rfl h
    | cons a t => simp [List.headD]
  shuffle_perm := fun _ l => List.Perm.refl l

/-- The subject-selection branch of the loop body:
`if not nouns and global_nouns: subject = random.choice(global_nouns)`,
`elif nouns: subject = Counter(nouns).most_common(1)[0][0]`,
`else: continue` (modelled as `none`). -/
def chooseSubject (R : RandGen) (g : List Str) (i : Nat) (nouns : List Str) :
    Option Str :=
  if nouns.isEmpty && !g.isEmpty then some (R.choice i g)
  else if !nouns.isEmpty then some (mostCommon nouns)
  else none

/-- The blanking step: find the first case-insensitive occurrence of the
subject and splice in the blank marker; otherwise fall back to
`sentence.replace(subject, "______", 1)`. -/
def makeStem (sentence subj : Str) : Str :=
  match findSub (pyLower sentence) (pyLower subj) with
  | some idx => sentence.take idx ++ blankMarker ++ sentence.drop (idx + subj.length)
  | none => replaceOnce sentence subj blankMarker

/-- The distractor pool: sentence nouns then global nouns, entries
case-insensitively equal to the subject excluded, deduplicated preserving
first-seen order. -/
def distractorPool (nouns g : List Str) (subj : Str) : List Str :=
  pyDedup ((nouns ++ g).filter (fun n => pyLower n ≠ pyLower subj))

/-- One round of `while len(distractor_pool) < 3: append "[distractor]"`,
with explicit fuel (each pass appends one element, so the loop runs at most
three times). -/
def padLoop : Nat → List Str → List Str
  | 0, p => p
  | n + 1, p => if p.length < 3 then padLoop n (p ++ [sentinel]) else p

/-- The padding loop `while len(distractor_pool) < 3: append "[distractor]"`. -/
def padPool (p : List Str) : List Str := padLoop 3 p

/-- The straight-line tail of the loop body once a subject is chosen:
blanking, distractor pool, padding, the two shuffles, and the correct
letter `chr(65 + answer_choices.index(subject))`. -/
def assembleQuestion (R : RandGen) (nouns g : List Str) (i : Nat)
    (sentence subj : Str) : MCQ :=
  let stem := makeStem sentence subj
  let pool := padPool (distractorPool nouns g subj)
  let pool1 := R.shuffle (2 * i) pool
  let choices := R.shuffle (2 * i + 1) (subj :: pool1.take 3)
  ⟨stem, choices, Char.ofNat (65 + choices.indexOf subj)⟩

/-- The loop body of `generate_mcqs` for one sampled sentence (index `i` in
the sampled order): returns `none` on the silent skip (`continue`), otherwise
the built MCQ record. -/
def buildQuestion (A : Annotator) (R : RandGen) (g : List Str) (i : Nat)
    (sentence : Str) : Option MCQ :=
  let nouns := localNouns A sentence
  match chooseSubject R g i nouns with
  | none => none
  | some subj => some (assembleQuestion R nouns g i sentence subj)

/-- The sentence list
`[sent.text.strip() for sent in doc.sents if sent.text.strip()]`. -/
def sentencesOf (A : Annotator) (text : Str) : List Str :=
  ((A.sents text).map pyStrip).filter (fun s => s ≠ [])

/-- The core generator `generate_mcqs(text, num_questions)` of `src/app.py`:
empty-input guards, global pool, clamped sampling, and the per-sentence loop
appending each successfully built MCQ. -/
def generate_mcqs (A : Annotator) (R : RandGen) (text : Str)
    (num_questions : Nat) : List MCQ :=
  if text = [] then []
  else
    let sentences := sentencesOf A text
    if sentences = [] then []
    else
      let g := globalNouns A text
      let k := min num_questions sentences.length
      let selected := R.sample sentences k
      selected.enum.filterMap (fun p => buildQuestion A R g p.1 p.2)

/-! ### Exception-aware variant

Python raises at a handful of spots: `random.sample` on a sample size larger
than the population (`ValueError`), `random.choice` on an empty sequence
(`IndexError`), `Counter(...).most_common(1)[0]` on an empty counter
(`IndexError`), and `list.index` on a missing element (`ValueError`).
The `...E` definitions repeat the embedding with those checks made explicit,
so "`generate_mcqs` never raises" becomes the theorem that the checked
variant always returns `Except.ok` of the total one. -/

/-- Checked `random.choice`: raises `IndexError` on an empty sequence. -/
def choiceE (R : RandGen) (i : Nat) (l : List Str) : Except String Str :=
  if l = [] then .error "IndexError: Cannot choose from an empty sequence"
  else .ok (R.choice i l)

/-- Checked `Counter(l).most_common(1)[0][0]`: raises `IndexError` when the
counter is empty. -/
def mostCommonE (l : List Str) : Except String Str :=
  if l = [] then .error "IndexError: list index out of range"
  else .ok (mostCommon l)

/-- Checked `list.index`: raises `ValueError` when the element is absent. -/
def indexE (l : List Str) (x : Str) : Except String Nat :=
  if x ∈ l then .ok (l.indexOf x) else .error "ValueError: x not in list"

/-- Checked `random.sample`: raises `ValueError` when the sample size exceeds
the population size. -/
def sampleE (R : RandGen) (l : List Str) (n : Nat) : Except String (List Str) :=
  if n ≤ l.length then .ok (R.sample l n)
  else .error "ValueError: Sample larger than population"

/-- The straight-line tail with the `list.index` lookup checked. -/
def assembleQuestionE (R : RandGen) (nouns g : List Str) (i : Nat)
    (sentence subj : Str) : Except String MCQ := do
  let stem := makeStem sentence subj
  let pool := padPool (distractorPool nouns g subj)
  let pool1 := R.shuffle (2 * i) pool
  let choices := R.shuffle (2 * i + 1) (subj :: pool1.take 3)
  let idx ← indexE choices subj
  pure ⟨stem, choices, Char.ofNat (65 + idx)⟩

/-- The loop body with all raising operations checked. -/
def buildQuestionE (A : Annotator) (R : RandGen) (g : List Str) (i : Nat)
    (sentence : Str) : Except String (Option MCQ) := do
  let nouns := localNouns A sentence
  let subj? : Option Str ←
    if nouns.isEmpty && !g.isEmpty then do
      let subj ← choiceE R i g
      pure (some subj)
    else if !nouns.isEmpty then do
      let subj ← mostCommonE nouns
      pure (some subj)
    else pure none
  match subj? with
  | none => pure none
  | some subj => do
      let m ← assembleQuestionE R nouns g i sentence subj
      pure (some m)

/-- The generator with all raising operations checked. -/
def generate_mcqsE (A : Annotator) (R : RandGen) (text : Str)
    (num_questions : Nat) : Except String (List MCQ) :=
  if text = [] then .ok []
  else
    let sentences := sentencesOf A text
    if sentences = [] then .ok []
    else do
      let g := globalNouns A text
      let k := min num_questions sentences.length
      let selected ← sampleE R sentences k
      let built ← selected.enum.mapM (fun p => buildQuestionE A R g p.1 p.2)
      pure (built.filterMap id)

/-! ### Concrete annotators used for evaluation

Each models the spaCy pipeline on one fixed tiny document (the same token
stream is returned for the full text and for each sentence, as spaCy would
produce on these one-noun-per-surface-form inputs). -/

/-- A document with a single sentence and a single noun: `"A cat."`. -/
def annotBasic : Annotator where
  sents := fun _ => ["A cat.".toList]
  tokens := fun _ => [⟨"cat".toList, "NOUN".toList⟩]

/-- A document whose sentence repeats a lemma: noun token lemmas
`a, b, b` in the sentence `"a b b."`. -/
def annotFreq : Annotator where
  sents := fun _ => ["a b b.".toList]
  tokens := fun _ =>
    [⟨"a".toList, "NOUN".toList⟩, ⟨"b".toList, "NOUN".toList⟩,
     ⟨"b".toList, "NOUN".toList⟩]

/-- A document whose sentence contains the subject's surface form twice:
`"cat cat"` with the single noun lemma `cat`. -/
def annotRepeat : Annotator where
  sents := fun _ => ["cat cat".toList]
  tokens := fun _ => [⟨"cat".toList, "NOUN".toList⟩]

/-- A document whose only noun lemma equals the sentinel placeholder string. -/
def annotSentinel : Annotator where
  sents := fun _ => ["d.".toList]
  tokens := fun _ => [⟨"[distractor]".toList, "NOUN".toList⟩]

/-- A document exercising the Final_Sigma rule of `str.lower()`: the sentence
`"ΑΣ"` with the single proper-noun lemma `"Σ"`. -/
def annotSigma : Annotator where
  sents := fun _ => ["ΑΣ".toList]
  tokens := fun _ => [⟨"Σ".toList, "PROPN".toList⟩]

/-- The MCQ that `generate_mcqs` produces from `annotBasic` under `detRand`. -/
def mcqBasic : MCQ :=
  ⟨"A ______.".toList, ["cat".toList, sentinel, sentinel, sentinel], 'A'⟩

/-! ### Lemmas about the embedded Python primitives -/

theorem pyDedupAux_sublist (seen l : List Str) : (pyDedupAux seen l).Sublist l := by
  induction l generalizing seen with
  | nil => exact List.Sublist.refl _
  | cons x xs ih =>
      rw [pyDedupAux]
      by_cases hx : x ∈ seen
      · rw [if_pos hx]
        exact (ih seen).cons x
      · rw [if_neg hx]
        exact (ih (x :: seen)).cons₂ x

theorem pyDedup_sublist (l : List Str) : (pyDedup l).Sublist l :=
  pyDedupAux_sublist [] l

theorem mem_pyDedupAux {x : Str} {seen l : List Str} :
    x ∈ pyDedupAux seen l ↔ x ∈ l ∧ x ∉ seen := by
  induction l generalizing seen with
  | nil => simp [pyDedupAux]
  | cons y ys ih =>
      rw [pyDedupAux]
      by_cases hy : y ∈ seen
      · rw [if_pos hy, ih]
        constructor
        · rintro ⟨h1, h2⟩
          exact ⟨List.mem_cons_of_mem _ h1, h2⟩
        · rintro ⟨h1, h2⟩
          rcases List.mem_cons.mp h1 with rfl | h1
          · exact absurd hy h2
          · exact ⟨h1, h2⟩
      · rw [if_neg hy]
        simp only [List.mem_cons, ih, not_or]
        constructor
        · rintro (rfl | ⟨h1, hne, h2⟩)
          · exact ⟨Or.inl rfl, hy⟩
          · exact ⟨Or.inr h1, h2⟩
        · rintro ⟨rfl | h1, h2⟩
          · exact Or.inl rfl
          · by_cases hxy : x = y
            · exact Or.inl hxy
            · exact Or.inr ⟨h1, hxy, h2⟩

theorem mem_pyDedup {x : Str} {l : List Str} : x ∈ pyDedup l ↔ x ∈ l := by
  rw [pyDedup, mem_pyDedupAux]
  simp

theorem pyDedupAux_nodup (seen l : List Str) : (pyDedupAux seen l).Nodup := by
  induction l generalizing seen with
  | nil => exact List.nodup_nil
  | cons y ys ih =>
      rw [pyDedupAux]
      by_cases hy : y ∈ seen
      · rw [if_pos hy]
        exact ih seen
      · rw [if_neg hy]
        refine List.nodup_cons.mpr ⟨fun hmem => ?_, ih _⟩
        have := (mem_pyDedupAux.mp hmem).2
        simp at this

theorem pyDedup_nodup (l : List Str) : (pyDedup l).Nodup :=
  pyDedupAux_nodup [] l

theorem pyDedupAux_eq_self :
    ∀ (l seen : List Str), (∀ x ∈ l, x ∉ seen) → l.Nodup → pyDedupAux seen l = l := by
  intro l
  induction l with
  | nil => intro seen _ _; rfl
  | cons y ys ih =>
      intro seen hseen h
      rw [pyDedupAux, if_neg (hseen y (List.mem_cons_self _ _))]
      rcases List.nodup_cons.mp h with ⟨hy, hys⟩
      congr 1
      refine ih (y :: seen) (fun x hx => ?_) hys
      simp only [List.mem_cons, not_or]
      exact ⟨fun he => hy (he ▸ hx), hseen x (List.mem_cons_of_mem _ hx)⟩

theorem pyDedup_eq_self {l : List Str} (h : l.Nodup) : pyDedup l = l :=
  pyDedupAux_eq_self l [] (by simp) h

theorem argmaxCount_eq_best (l : List Str) (ks : List Str) (best : Str)
    (h : ∀ k ∈ ks, l.count k ≤ l.count best) : argmaxCount l ks best = best := by
  induction ks with
  | nil => rfl
  | cons k ks ih =>
      rw [argmaxCount]
      have hk := h k (List.mem_cons_self _ _)
      rw [if_neg (by omega)]
      exact ih fun k hk => h k (List.mem_cons_of_mem _ hk)

theorem count_le_one_of_nodup {l : List Str} (h : l.Nodup) (a : Str) :
    l.count a ≤ 1 := by
  induction l with
  | nil => simp
  | cons x xs ih =>
      rcases List.nodup_cons.mp h with ⟨hx, hxs⟩
      by_cases hax : a = x
      · subst hax
        rw [List.count_cons_self, List.count_eq_zero.mpr hx]
      · rw [List.count_cons_of_ne hax]
        exact ih hxs

/-- On a duplicate-free non-empty list every count is one, so
`Counter(l).most_common(1)[0][0]` degenerates to the first element. -/
theorem mostCommon_of_nodup {l : List Str} (hnd : l.Nodup) (hne : l ≠ []) :
    mostCommon l = l.headD [] := by
  rw [mostCommon, pyDedup_eq_self hnd]
  cases l with
  | nil => exact absurd rfl hne
  | cons x xs =>
      simp only [List.headD_cons]
      refine argmaxCount_eq_best _ _ _ fun k hk => ?_
      have hx : x ∉ xs := (List.nodup_cons.mp hnd).1
      have h1 : (x :: xs).count x = 1 := by
        rw [List.count_cons_self, List.count_eq_zero.mpr hx]
      have h2 : (x :: xs).count k ≤ 1 := count_le_one_of_nodup hnd k
      omega

theorem findSub_some {hay needle : Str} :
    ∀ {i : Nat}, findSub hay needle = some i →
      needle <+: hay.drop i ∧ ∀ j < i, ¬ needle <+: hay.drop j := by
  induction hay with
  | nil =>
      intro i h
      rw [findSub] at h
      by_cases hp : needle.isPrefixOf ([] : Str)
      · rw [if_pos hp] at h
        cases h
        exact ⟨List.isPrefixOf_iff_prefix.mp hp, fun j hj => absurd hj (Nat.not_lt_zero j)⟩
      · rw [if_neg hp] at h
        cases h
  | cons c t ih =>
      intro i h
      rw [findSub] at h
      by_cases hp : needle.isPrefixOf (c :: t)
      · rw [if_pos hp] at h
        cases h
        exact ⟨List.isPrefixOf_iff_prefix.mp hp, fun j hj => absurd hj (Nat.not_lt_zero j)⟩
      · rw [if_neg hp] at h
        rcases Option.map_eq_some'.mp h with ⟨i', hi', rfl⟩
        rcases ih hi' with ⟨hpre, hmin⟩
        refine ⟨hpre, fun j hj => ?_⟩
        cases j with
        | zero =>
            simpa [List.isPrefixOf_iff_prefix] using hp
        | succ j' =>
            exact hmin j' (Nat.lt_of_succ_lt_succ hj)

theorem findSub_none {hay needle : Str} (h : findSub hay needle = none) :
    ∀ j, ¬ needle <+: hay.drop j := by
  induction hay with
  | nil =>
      intro j
      rw [findSub] at h
      by_cases hp : needle.isPrefixOf ([] : Str)
      · rw [if_pos hp] at h; cases h
      · rw [if_neg hp] at h
        simpa [List.isPrefixOf_iff_prefix, List.drop_nil] using hp
  | cons c t ih =>
      intro j
      rw [findSub] at h
      by_cases hp : needle.isPrefixOf (c :: t)
      · rw [if_pos hp] at h; cases h
      · rw [if_neg hp] at h
        cases j with
        | zero => simpa [List.isPrefixOf_iff_prefix] using hp
        | succ j' =>
            exact ih (Option.map_eq_none'.mp h) j'

theorem padLoop_eq :
    ∀ (n : Nat) (p : List Str), 3 - p.length ≤ n →
      padLoop n p = p ++ List.replicate (3 - p.length) sentinel := by
  intro n
  induction n with
  | zero =>
      intro p h
      have h0 : 3 - p.length = 0 := by omega
      rw [padLoop, h0]
      simp
  | succ n ih =>
      intro p h
      rw [padLoop]
      by_cases hlt : p.length < 3
      · rw [if_pos hlt,
          ih (p ++ [sentinel]) (by
            simp only [List.length_append, List.length_cons, List.length_nil]
            omega)]
        have h3 : 3 - p.length = (3 - (p ++ [sentinel]).length) + 1 := by
          simp only [List.length_append, List.length_cons, List.length_nil]
          omega
        rw [h3, List.append_assoc, List.singleton_append, List.replicate_succ]
      · rw [if_neg hlt]
        have h0 : 3 - p.length = 0 := by omega
        rw [h0]
        simp

theorem padPool_eq (p : List Str) :
    padPool p = p ++ List.replicate (3 - p.length) sentinel :=
  padLoop_eq 3 p (by omega)

theorem padPool_length (p : List Str) : (padPool p).length = max p.length 3 := by
  rw [padPool_eq]
  simp only [List.length_append, List.length_replicate]
  omega

theorem mem_padPool {x : Str} {p : List Str} (h : x ∈ padPool p) :
    x ∈ p ∨ x = sentinel := by
  rw [padPool_eq] at h
  rcases List.mem_append.mp h with h | h
  · exact Or.inl h
  · exact Or.inr (List.eq_of_mem_replicate h)

/-! ### Structural lemmas about the generator -/

theorem chooseSubject_eq_none_iff {R : RandGen} {g : List Str} {i : Nat}
    {nouns : List Str} :
    chooseSubject R g i nouns = none ↔ nouns = [] ∧ g = [] := by
  rw [chooseSubject]
  rcases hn : nouns with _ | ⟨x, xs⟩ <;> rcases hg : g with _ | ⟨y, ys⟩ <;> simp

theorem buildQuestion_eq_none_iff {A : Annotator} {R : RandGen} {g : List Str}
    {i : Nat} {s : Str} :
    buildQuestion A R g i s = none ↔ localNouns A s = [] ∧ g = [] := by
  rw [buildQuestion]
  rcases h : chooseSubject R g i (localNouns A s) with _ | subj
  · simpa using chooseSubject_eq_none_iff.mp h
  · simp only [reduceCtorEq, false_iff]
    intro hc
    rw [chooseSubject_eq_none_iff.mpr hc] at h
    cases h

theorem buildQuestion_some_elim {A : Annotator} {R : RandGen} {g : List Str}
    {i : Nat} {s : Str} {m : MCQ} (h : buildQuestion A R g i s = some m) :
    ∃ subj, chooseSubject R g i (localNouns A s) = some subj ∧
      m = assembleQuestion R (localNouns A s) g i s subj := by
  rw [buildQuestion] at h
  rcases hc : chooseSubject R g i (localNouns A s) with _ | subj
  · rw [hc] at h; cases h
  · rw [hc] at h
    exact ⟨subj, rfl, (Option.some.inj h).symm⟩

/-- The pieces of an assembled MCQ record. -/
theorem assembleQuestion_spec (R : RandGen) (nouns g : List Str) (i : Nat)
    (s subj : Str) :
    (assembleQuestion R nouns g i s subj).stem = makeStem s subj ∧
    (assembleQuestion R nouns g i s subj).choices.Perm
      (subj :: (R.shuffle (2 * i) (padPool (distractorPool nouns g subj))).take 3) ∧
    (assembleQuestion R nouns g i s subj).correct =
      Char.ofNat (65 + (assembleQuestion R nouns g i s subj).choices.indexOf subj) := by
  refine ⟨rfl, ?_, rfl⟩
  exact R.shuffle_perm _ _

theorem assembleQuestion_choices_length (R : RandGen) (nouns g : List Str)
    (i : Nat) (s subj : Str) :
    (assembleQuestion R nouns g i s subj).choices.length = 4 := by
  have hperm := (assembleQuestion_spec R nouns g i s subj).2.1
  rw [hperm.length_eq]
  have hpool : (R.shuffle (2 * i) (padPool (distractorPool nouns g subj))).length =
      (padPool (distractorPool nouns g subj)).length :=
    (R.shuffle_perm _ _).length_eq
  have h3 : 3 ≤ (R.shuffle (2 * i) (padPool (distractorPool nouns g subj))).length := by
    rw [hpool, padPool_length]
    omega
  simp only [List.length_cons, List.length_take]
  omega

theorem assembleQuestion_subj_mem (R : RandGen) (nouns g : List Str) (i : Nat)
    (s subj : Str) :
    subj ∈ (assembleQuestion R nouns g i s subj).choices := by
  have hperm := (assembleQuestion_spec R nouns g i s subj).2.1
  exact hperm.mem_iff.mpr (List.mem_cons_self _ _)

/-- Every member of a successfully built record's output list comes from the
loop body applied to a sampled sentence. -/
theorem mem_generate_mcqs {A : Annotator} {R : RandGen} {text : Str} {k : Nat}
    {m : MCQ} (h : m ∈ generate_mcqs A R text k) :
    ∃ i s, s ∈ sentencesOf A text ∧
      buildQuestion A R (globalNouns A text) i s = some m := by
  rw [generate_mcqs] at h
  by_cases ht : text = []
  · rw [if_pos ht] at h; cases h
  · rw [if_neg ht] at h
    by_cases hs : sentencesOf A text = []
    · simp only [hs, if_pos] at h
      cases h
    · simp only [hs, if_neg, reduceIte] at h
      rcases List.mem_filterMap.mp h with ⟨⟨i, s⟩, hmem, hbuild⟩
      refine ⟨i, s, ?_, hbuild⟩
      have hsel : s ∈ R.sample (sentencesOf A text)
          (min k (sentencesOf A text).length) := by
        have := List.mem_enum_iff_getElem?.mp hmem
        exact List.getElem?_mem this
      exact R.sample_mem _ _ _ hsel

theorem filterMap_length_eq_of_isSome {α β : Type} (f : α → Option β) :
    ∀ (l : List α), (∀ x ∈ l, (f x).isSome) → (l.filterMap f).length = l.length := by
  intro l
  induction l with
  | nil => intro _; rfl
  | cons x xs ih =>
      intro h
      rcases Option.isSome_iff_exists.mp (h x (List.mem_cons_self _ _)) with ⟨b, hb⟩
      rw [List.filterMap_cons, hb]
      simp only [List.length_cons]
      rw [ih fun y hy => h y (List.mem_cons_of_mem _ hy)]

/-! ### Claim C3 -/

/-- C3: for every requested count, if the input text is empty or annotation
yields zero non-empty sentences, `generate_mcqs` returns the empty list. -/
theorem C3_empty_input (A : Annotator) (R : RandGen) (text : Str) (k : Nat)
    (h : text = [] ∨ sentencesOf A text = []) :
    generate_mcqs A R text k = [] := by
  rw [generate_mcqs]
  rcases h with h | h
  · rw [if_pos h]
  · by_cases ht : text = []
    · rw [if_pos ht]
    · rw [if_neg ht]
      simp [h]

theorem C3_empty_input_witness :
    (([] : Str) = [] ∨ sentencesOf annotBasic [] = []) ∧
    generate_mcqs annotBasic detRand [] 5 = [] :=
  ⟨Or.inl rfl, C3_empty_input annotBasic detRand [] 5 (Or.inl rfl)⟩

/-! ### Claim C4 -/

/-- C4: the number of MCQs returned never exceeds
`min requestedCount (number of non-empty sentences)`; in particular a
requested count of zero yields the empty list. -/
theorem C4_count_clamped (A : Annotator) (R : RandGen) (text : Str) (k : Nat) :
    (generate_mcqs A R text k).length ≤ min k (sentencesOf A text).length ∧
    generate_mcqs A R text 0 = [] := by
  constructor
  · rw [generate_mcqs]
    by_cases ht : text = []
    · rw [if_pos ht]
      simp
    · rw [if_neg ht]
      by_cases hs : sentencesOf A text = []
      · simp [hs]
      · simp only [hs, reduceIte]
        have h1 := List.length_filterMap_le
          (fun p => buildQuestion A R (globalNouns A text) p.1 p.2)
          ((R.sample (sentencesOf A text) (min k (sentencesOf A text).length)).enum)
        have h2 : ((R.sample (sentencesOf A text)
            (min k (sentencesOf A text).length)).enum).length
              = min k (sentencesOf A text).length := by
          rw [List.enum_length]
          exact R.sample_length _ _ (Nat.min_le_right _ _)
        omega
  · rw [generate_mcqs]
    by_cases ht : text = []
    · rw [if_pos ht]
    · rw [if_neg ht]
      by_cases hs : sentencesOf A text = []
      · simp [hs]
      · simp only [hs, reduceIte]
        have h2 : (R.sample (sentencesOf A text)
            (min 0 (sentencesOf A text).length)).length = 0 := by
          rw [R.sample_length _ _ (Nat.min_le_right _ _)]
          exact Nat.zero_min _
        rw [List.eq_nil_of_length_eq_zero h2]
        rfl

/-! ### Claim C10 -/

/-- C10 as stated is false on the program: `str.lower()` is context-sensitive
(Final_Sigma), so for the sentence `"ΑΣ"` and the subject `"Σ"` the lowered
find fails (`"ας"` does not contain `"σ"`) although the subject occurs
verbatim at index 1; the fallback `replace` then substitutes and the stem is
`"Α______"`, not the sentence unchanged — and the full pipeline produces
exactly that stem. -/
theorem C10_counterexample :
    findSub (pyLower ("ΑΣ".toList)) (pyLower ("Σ".toList)) = none ∧
    pyLower ("ΑΣ".toList) = "ας".toList ∧
    pyLower ("Σ".toList) = "σ".toList ∧
    findSub ("ΑΣ".toList) ("Σ".toList) = some 1 ∧
    makeStem ("ΑΣ".toList) ("Σ".toList) = "Α______".toList ∧
    ("Α______".toList : Str) ≠ "ΑΣ".toList ∧
    (generate_mcqs annotSigma detRand ("ΑΣ".toList) 1).map MCQ.stem
      = ["Α______".toList] := by decide

/-- C10 (amended): when the lowercased subject is not a substring of the
lowercased sentence, the fallback branch runs and the stem is
`sentence.replace(subject, "______", 1)`; because `str.lower()` is
context-sensitive (final sigma), the subject can still occur verbatim, and
then the replace splices the blank over the first verbatim occurrence; only
when the subject also has no verbatim occurrence does the replace perform no
substitution, leaving the stem equal to the sentence unchanged. -/
theorem C10_fallback_behaviour (sentence subj : Str)
    (h : findSub (pyLower sentence) (pyLower subj) = none) :
    makeStem sentence subj = replaceOnce sentence subj blankMarker ∧
    (∀ i, findSub sentence subj = some i →
      makeStem sentence subj
        = sentence.take i ++ blankMarker ++ sentence.drop (i + subj.length) ∧
      subj <+: sentence.drop i ∧ ∀ j < i, ¬ subj <+: sentence.drop j) ∧
    (findSub sentence subj = none → makeStem sentence subj = sentence) := by
  have hfall : makeStem sentence subj = replaceOnce sentence subj blankMarker := by
    rw [makeStem, h]
  refine ⟨hfall, fun i hi => ?_, fun hnone => ?_⟩
  · rcases findSub_some hi with ⟨hpre, hmin⟩
    refine ⟨?_, hpre, hmin⟩
    rw [hfall, replaceOnce, hi]
  · rw [hfall, replaceOnce, hnone]

theorem C10_fallback_behaviour_witness :
    findSub (pyLower ("ΑΣ".toList)) (pyLower ("Σ".toList)) = none ∧
    (makeStem ("ΑΣ".toList) ("Σ".toList)
        = replaceOnce ("ΑΣ".toList) ("Σ".toList) blankMarker ∧
      (∀ i, findSub ("ΑΣ".toList) ("Σ".toList) = some i →
        makeStem ("ΑΣ".toList) ("Σ".toList)
          = ("ΑΣ".toList).take i ++ blankMarker
            ++ ("ΑΣ".toList).drop (i + ("Σ".toList).length) ∧
        ("Σ".toList : Str) <+: ("ΑΣ".toList).drop i ∧
          ∀ j < i, ¬ ("Σ".toList : Str) <+: ("ΑΣ".toList).drop j) ∧
      (findSub ("ΑΣ".toList) ("Σ".toList) = none →
        makeStem ("ΑΣ".toList) ("Σ".toList) = "ΑΣ".toList)) :=
  ⟨by decide, C10_fallback_behaviour ("ΑΣ".toList) ("Σ".toList) (by decide)⟩

/-! ### Claim C2 -/

/-- C2 as stated is false on the code: in sentence `"a b b."` the lemma `b`
occurs twice among the noun tokens and `a` once, yet the generated question's
subject (the choice at the correct letter's index) is `a`, because the code
deduplicates the lemma list before handing it to `Counter`. -/
theorem C2_counterexample :
    (generate_mcqs annotFreq detRand ("a b b.".toList) 1).map
        (fun m => m.choices.getD (m.correct.toNat - 65) []) = ["a".toList] ∧
    (nounLemmas (annotFreq.tokens ("a b b.".toList))).count ("b".toList) = 2 ∧
    (nounLemmas (annotFreq.tokens ("a b b.".toList))).count ("a".toList) = 1 ∧
    ("a".toList : Str) ≠ "b".toList := by decide

/-- C2 (amended): for every sampled sentence whose local noun pool is
non-empty, the chosen subject is the first-seen noun lemma of the sentence:
the pool is deduplicated before `Counter` counts it, so every count equals
one and the stable tie-break always selects the head of the pool. -/
theorem C2_first_seen_subject (A : Annotator) (s : Str)
    (h : localNouns A s ≠ []) (R : RandGen) (g : List Str) (i : Nat) :
    chooseSubject R g i (localNouns A s) = some ((localNouns A s).headD []) := by
  have hnd : (localNouns A s).Nodup := List.Nodup.filter _ (pyDedup_nodup _)
  have hne : (localNouns A s).isEmpty = false := by
    rcases hl : localNouns A s with _ | ⟨x, xs⟩
    · exact absurd hl h
    · rfl
  rw [chooseSubject, hne]
  simp only [Bool.false_and, Bool.not_false, Bool.false_eq_true, if_false, if_true]
  exact congrArg some (mostCommon_of_nodup hnd h)

theorem C2_first_seen_subject_witness :
    localNouns annotBasic ("A cat.".toList) ≠ [] ∧
    chooseSubject detRand ["cat".toList] 0 (localNouns annotBasic ("A cat.".toList))
      = some ((localNouns annotBasic ("A cat.".toList)).headD []) :=
  ⟨by decide,
    C2_first_seen_subject annotBasic ("A cat.".toList) (by decide) detRand
      ["cat".toList] 0⟩

/-! ### Claim C8 -/

theorem mapM_ok {α β : Type} {f : α → Except String β} {g : α → β} :
    ∀ {l : List α}, (∀ x ∈ l, f x = .ok (g x)) → l.mapM f = .ok (l.map g) := by
  intro l
  induction l with
  | nil => intro _; rfl
  | cons x xs ih =>
      intro h
      rw [List.mapM_cons, h x (List.mem_cons_self _ _),
        ih fun y hy => h y (List.mem_cons_of_mem _ hy)]
      rfl

theorem except_ok_bind {α β : Type} (a : α) (f : α → Except String β) :
    (Except.ok a >>= f : Except String β) = f a := rfl

theorem except_pure_eq_ok {α : Type} (a : α) :
    (pure a : Except String α) = Except.ok a := rfl

theorem assembleQuestionE_ok (R : RandGen) (nouns g : List Str) (i : Nat)
    (s subj : Str) :
    assembleQuestionE R nouns g i s subj
      = .ok (assembleQuestion R nouns g i s subj) := by
  have hmem : subj ∈ R.shuffle (2 * i + 1)
      (subj :: (R.shuffle (2 * i) (padPool (distractorPool nouns g subj))).take 3) :=
    (R.shuffle_perm _ _).mem_iff.mpr (List.mem_cons_self _ _)
  simp only [assembleQuestionE, assembleQuestion, indexE, if_pos hmem]
  rfl

theorem buildQuestionE_ok (A : Annotator) (R : RandGen) (g : List Str) (i : Nat)
    (s : Str) : buildQuestionE A R g i s = .ok (buildQuestion A R g i s) := by
  rw [buildQuestionE, buildQuestion]
  by_cases h1 : (localNouns A s).isEmpty && !g.isEmpty
  · have hg : g ≠ [] := by
      rcases hgl : g with _ | ⟨y, ys⟩
      · rw [hgl] at h1
        simp at h1
      · exact (List.cons_ne_nil y ys)
    simp only [h1, if_true, chooseSubject, choiceE, if_neg hg,
      except_ok_bind, except_pure_eq_ok]
    rw [assembleQuestionE_ok]
    rfl
  · by_cases h2 : !(localNouns A s).isEmpty
    · have hn : localNouns A s ≠ [] := by
        rcases hl : localNouns A s with _ | ⟨y, ys⟩
        · rw [hl] at h2
          simp at h2
        · exact (List.cons_ne_nil y ys)
      simp only [h1, h2, if_true, if_false, Bool.false_eq_true, chooseSubject,
        mostCommonE, if_neg hn, except_ok_bind, except_pure_eq_ok]
      rw [assembleQuestionE_ok]
      rfl
    · simp only [h1, h2, if_false, Bool.false_eq_true, chooseSubject]
      rfl

/-- C8: the checked variant of the generator (with every Python raising
operation made explicit) always returns `ok` of the total embedding, so
`generate_mcqs` terminates without raising for every text and count; and the
loop body's only non-producing outcome is the silent skip, which happens
exactly when both the sentence's local noun pool and the global pool are
empty. -/
theorem C8_no_raise_and_skip (A : Annotator) (R : RandGen) (text : Str)
    (k : Nat) :
    generate_mcqsE A R text k = .ok (generate_mcqs A R text k) ∧
    ∀ (g : List Str) (i : Nat) (s : Str),
      buildQuestion A R g i s = none ↔ localNouns A s = [] ∧ g = [] := by
  refine ⟨?_, fun g i s => buildQuestion_eq_none_iff⟩
  rw [generate_mcqsE, generate_mcqs]
  by_cases ht : text = []
  · rw [if_pos ht, if_pos ht]
  · rw [if_neg ht, if_neg ht]
    by_cases hs : sentencesOf A text = []
    · simp [hs]
    · simp only [hs, reduceIte]
      rw [sampleE, if_pos (Nat.min_le_right _ _)]
      have hm := mapM_ok (l := (R.sample (sentencesOf A text)
            (min k (sentencesOf A text).length)).enum)
        (f := fun p => buildQuestionE A R (globalNouns A text) p.1 p.2)
        (g := fun p => buildQuestion A R (globalNouns A text) p.1 p.2)
        (fun p _ => buildQuestionE_ok A R (globalNouns A text) p.1 p.2)
      rw [except_ok_bind, hm, except_ok_bind, except_pure_eq_ok]
      rw [List.filterMap_map]
      rfl

theorem indexOf_mem_getD {a : Str} :
    ∀ {l : List Str}, a ∈ l →
      l.indexOf a < l.length ∧ l.getD (l.indexOf a) [] = a := by
  intro l
  induction l with
  | nil => intro h; cases h
  | cons x xs ih =>
      intro h
      rw [List.indexOf_cons]
      by_cases hax : x = a
      · rw [hax]
        simp
      · rw [beq_eq_false_iff_ne.mpr hax]
        simp only [cond_false, List.length_cons, List.getD_cons_succ]
        rcases List.mem_cons.mp h with rfl | hmem
        · exact absurd rfl hax
        · rcases ih hmem with ⟨h1, h2⟩
          exact ⟨Nat.succ_lt_succ h1, h2⟩

/-! ### Claim C9 -/

/-- C9: when the global noun pool is non-empty no sampled sentence is ever
skipped, so the generator returns exactly
`min requestedCount (number of non-empty sentences)` MCQs. -/
theorem C9_exact_count (A : Annotator) (R : RandGen) (text : Str) (k : Nat)
    (htext : text ≠ []) (hg : globalNouns A text ≠ []) :
    (generate_mcqs A R text k).length = min k (sentencesOf A text).length := by
  rw [generate_mcqs, if_neg htext]
  by_cases hs : sentencesOf A text = []
  · simp [hs]
  · simp only [hs, reduceIte]
    rw [filterMap_length_eq_of_isSome _ _ ?_]
    · rw [List.enum_length]
      exact R.sample_length _ _ (Nat.min_le_right _ _)
    · intro p _
      rcases hb : buildQuestion A R (globalNouns A text) p.1 p.2 with _ | m
      · exact absurd (buildQuestion_eq_none_iff.mp hb).2 hg
      · rfl

theorem C9_exact_count_witness :
    ("A cat.".toList : Str) ≠ [] ∧
    globalNouns annotBasic ("A cat.".toList) ≠ [] ∧
    (generate_mcqs annotBasic detRand ("A cat.".toList) 5).length
      = min 5 (sentencesOf annotBasic ("A cat.".toList)).length :=
  ⟨by decide, by decide,
    C9_exact_count annotBasic detRand ("A cat.".toList) 5 (by decide) (by decide)⟩

/-! ### Claim C1 -/

/-- C1: every returned MCQ has exactly 4 choices, a correct letter among
A..D, and the choice at the letter's index (A=0 .. D=3) is exactly the
subject chosen for that question. -/
theorem C1_mcq_invariants (A : Annotator) (R : RandGen) (text : Str) (k : Nat)
    (m : MCQ) (hm : m ∈ generate_mcqs A R text k) :
    m.choices.length = 4 ∧
    m.correct ∈ (['A', 'B', 'C', 'D'] : List Char) ∧
    ∃ i s subj, s ∈ sentencesOf A text ∧
      chooseSubject R (globalNouns A text) i (localNouns A s) = some subj ∧
      m.choices.getD (m.correct.toNat - 65) [] = subj := by
  rcases mem_generate_mcqs hm with ⟨i, s, hsent, hbuild⟩
  rcases buildQuestion_some_elim hbuild with ⟨subj, hchoose, rfl⟩
  have hlen := assembleQuestion_choices_length R (localNouns A s)
    (globalNouns A text) i s subj
  have hmem := assembleQuestion_subj_mem R (localNouns A s)
    (globalNouns A text) i s subj
  have hcor := (assembleQuestion_spec R (localNouns A s)
    (globalNouns A text) i s subj).2.2
  have hidx4 : (assembleQuestion R (localNouns A s) (globalNouns A text) i s
      subj).choices.indexOf subj < 4 := hlen ▸ (indexOf_mem_getD hmem).1
  have hletter : ∀ n, n < 4 → (Char.ofNat (65 + n)).toNat - 65 = n ∧
      Char.ofNat (65 + n) ∈ (['A', 'B', 'C', 'D'] : List Char) := by decide
  refine ⟨hlen, ?_, i, s, subj, hsent, hchoose, ?_⟩
  · rw [hcor]
    exact (hletter _ hidx4).2
  · rw [hcor, (hletter _ hidx4).1]
    exact (indexOf_mem_getD hmem).2

theorem C1_mcq_invariants_witness :
    mcqBasic ∈ generate_mcqs annotBasic detRand ("A cat.".toList) 1 ∧
    (mcqBasic.choices.length = 4 ∧
      mcqBasic.correct ∈ (['A', 'B', 'C', 'D'] : List Char) ∧
      ∃ i s subj, s ∈ sentencesOf annotBasic ("A cat.".toList) ∧
        chooseSubject detRand (globalNouns annotBasic ("A cat.".toList)) i
          (localNouns annotBasic s) = some subj ∧
        mcqBasic.choices.getD (mcqBasic.correct.toNat - 65) [] = subj) :=
  ⟨by decide, C1_mcq_invariants annotBasic detRand ("A cat.".toList) 1 mcqBasic (by decide)⟩

/-! ### Claim C5 -/

/-- C5 as stated is false on the code: in `"cat cat"` with subject `cat` the
first case-insensitive occurrence (the span `cat` at index 0) is replaced, but
the produced stem `"______ cat"` still contains that replaced span, because
the subject occurs a second time. -/
theorem C5_counterexample :
    (generate_mcqs annotRepeat detRand ("cat cat".toList) 1).map MCQ.stem
      = ["______ cat".toList] ∧
    findSub (pyLower ("cat cat".toList)) (pyLower ("cat".toList)) = some 0 ∧
    ("cat cat".toList).take 3 = "cat".toList ∧
    findSub ("______ cat".toList) ("cat".toList) = some 7 := by decide

/-- C5 (amended): when the subject occurs case-insensitively in the sentence,
the stem is the sentence with the first such occurrence (the least index where
the lowered subject is a prefix of the lowered sentence's tail) replaced by
the blank marker; the occurrence at that position is gone, though other
occurrences of the same span may survive elsewhere in the stem. -/
theorem C5_stem_blanking (A : Annotator) (R : RandGen) (g : List Str)
    (i : Nat) (s : Str) (m : MCQ) (subj : Str) (idx : Nat)
    (hb : buildQuestion A R g i s = some m)
    (hc : chooseSubject R g i (localNouns A s) = some subj)
    (hf : findSub (pyLower s) (pyLower subj) = some idx) :
    m.stem = s.take idx ++ blankMarker ++ s.drop (idx + subj.length) ∧
    pyLower subj <+: (pyLower s).drop idx ∧
    ∀ j < idx, ¬ pyLower subj <+: (pyLower s).drop j := by
  rcases buildQuestion_some_elim hb with ⟨subj2, hc2, rfl⟩
  rw [hc] at hc2
  cases Option.some.inj hc2
  rcases findSub_some hf with ⟨hpre, hmin⟩
  refine ⟨?_, hpre, hmin⟩
  have hstem := (assembleQuestion_spec R (localNouns A s) g i s subj).1
  rw [hstem, makeStem, hf]

theorem C5_stem_blanking_witness :
    buildQuestion annotBasic detRand ["cat".toList] 0 ("A cat.".toList)
      = some mcqBasic ∧
    chooseSubject detRand ["cat".toList] 0
      (localNouns annotBasic ("A cat.".toList)) = some ("cat".toList) ∧
    findSub (pyLower ("A cat.".toList)) (pyLower ("cat".toList)) = some 2 ∧
    (mcqBasic.stem = ("A cat.".toList).take 2 ++ blankMarker
        ++ ("A cat.".toList).drop (2 + ("cat".toList).length) ∧
      pyLower ("cat".toList) <+: (pyLower ("A cat.".toList)).drop 2 ∧
      ∀ j < 2, ¬ pyLower ("cat".toList) <+: (pyLower ("A cat.".toList)).drop j) :=
  ⟨by decide, by decide, by decide,
    C5_stem_blanking annotBasic detRand ["cat".toList] 0 ("A cat.".toList)
      mcqBasic ("cat".toList) 2 (by decide) (by decide) (by decide)⟩

/-! ### Claim C6 -/

/-- C6 as stated is false on the code: when the only noun lemma is the string
`"[distractor]"` itself, the padded choices contain three sentinel
placeholders, each case-insensitively equal to the subject (choice index 0,
the correct letter A), so a distractor placed in the choices is
case-insensitively equal to the subject. -/
theorem C6_counterexample :
    generate_mcqs annotSentinel detRand ("d.".toList) 1 =
      [⟨"d.".toList, [sentinel, sentinel, sentinel, sentinel], 'A'⟩] ∧
    pyLower (([sentinel, sentinel, sentinel, sentinel] : List Str).getD 1 [])
      = pyLower (([sentinel, sentinel, sentinel, sentinel] : List Str).getD 0 []) ∧
    (1 : Nat) ≠ 'A'.toNat - 65 := by decide

/-- C6 (amended): the distractor pool is the sentence's local nouns followed
by the global nouns with everything case-insensitively equal to the subject
excluded and duplicates removed preserving first-seen order; every choice of a
built question is the subject, a pool entry (never case-insensitively equal to
the subject), or the padding sentinel — and a padding sentinel can coincide
with a subject whose lemma is the sentinel string itself. -/
theorem C6_distractor_pool (A : Annotator) (R : RandGen) (g : List Str)
    (i : Nat) (s : Str) (m : MCQ) (subj : Str)
    (hb : buildQuestion A R g i s = some m)
    (hc : chooseSubject R g i (localNouns A s) = some subj) :
    (distractorPool (localNouns A s) g subj).Sublist (localNouns A s ++ g) ∧
    (distractorPool (localNouns A s) g subj).Nodup ∧
    (∀ x, x ∈ distractorPool (localNouns A s) g subj ↔
      (x ∈ localNouns A s ++ g ∧ pyLower x ≠ pyLower subj)) ∧
    ∀ c ∈ m.choices, c = subj ∨
      (c ∈ distractorPool (localNouns A s) g subj ∧ pyLower c ≠ pyLower subj) ∨
      c = sentinel := by
  refine ⟨(pyDedup_sublist _).trans (List.filter_sublist _), pyDedup_nodup _,
    fun x => ?_, ?_⟩
  · rw [distractorPool, mem_pyDedup, List.mem_filter]
    simp only [ne_eq, decide_not, Bool.not_eq_eq_eq_not, Bool.not_true,
      decide_eq_false_iff_not]
  · rcases buildQuestion_some_elim hb with ⟨subj2, hc2, rfl⟩
    rw [hc] at hc2
    cases Option.some.inj hc2
    intro c hcmem
    have hperm := (assembleQuestion_spec R (localNouns A s) g i s subj).2.1
    rcases List.mem_cons.mp (hperm.mem_iff.mp hcmem) with rfl | htail
    · exact Or.inl rfl
    · have hpool1 : c ∈ R.shuffle (2 * i)
          (padPool (distractorPool (localNouns A s) g subj)) :=
        List.mem_of_mem_take htail
      have hpad : c ∈ padPool (distractorPool (localNouns A s) g subj) :=
        (R.shuffle_perm _ _).mem_iff.mp hpool1
      rcases mem_padPool hpad with hin | hsent
      · refine Or.inr (Or.inl ⟨hin, ?_⟩)
        have := mem_pyDedup.mp hin
        have hfd := (List.mem_filter.mp this).2
        simpa using hfd
      · exact Or.inr (Or.inr hsent)

theorem C6_distractor_pool_witness :
    buildQuestion annotBasic detRand ["cat".toList] 0 ("A cat.".toList)
      = some mcqBasic ∧
    chooseSubject detRand ["cat".toList] 0
      (localNouns annotBasic ("A cat.".toList)) = some ("cat".toList) ∧
    ((distractorPool (localNouns annotBasic ("A cat.".toList)) ["cat".toList]
        ("cat".toList)).Sublist
          (localNouns annotBasic ("A cat.".toList) ++ ["cat".toList]) ∧
      (distractorPool (localNouns annotBasic ("A cat.".toList)) ["cat".toList]
        ("cat".toList)).Nodup ∧
      (∀ x, x ∈ distractorPool (localNouns annotBasic ("A cat.".toList))
          ["cat".toList] ("cat".toList) ↔
        (x ∈ localNouns annotBasic ("A cat.".toList) ++ ["cat".toList] ∧
          pyLower x ≠ pyLower ("cat".toList))) ∧
      ∀ c ∈ mcqBasic.choices, c = "cat".toList ∨
        (c ∈ distractorPool (localNouns annotBasic ("A cat.".toList))
            ["cat".toList] ("cat".toList) ∧
          pyLower c ≠ pyLower ("cat".toList)) ∨
        c = sentinel) :=
  ⟨by decide, by decide,
    C6_distractor_pool annotBasic detRand ["cat".toList] 0 ("A cat.".toList)
      mcqBasic ("cat".toList) (by decide) (by decide)⟩

/-! ### Claim C7 -/

theorem sample_singleton (R : RandGen) (s : Str) : R.sample [s] 1 = [s] := by
  have hlen : (R.sample [s] 1).length = 1 :=
    R.sample_length [s] 1 (by simp)
  rcases List.length_eq_one.mp hlen with ⟨a, ha⟩
  have : a ∈ R.sample [s] 1 := by
    rw [ha]
    exact List.mem_cons_self _ _
  have := R.sample_mem [s] 1 a this
  simp only [List.mem_singleton] at this
  rw [ha, this]

/-- C7: a distractor pool with fewer than 3 entries is padded with the
sentinel up to exactly 3; in particular a document of one sentence with one
noun lemma yields one MCQ whose choices are the subject together with three
sentinel placeholders. -/
theorem C7_sentinel_padding (A : Annotator) (R : RandGen) (text s subj : Str)
    (k : Nat) (hk : 1 ≤ k) (htext : text ≠ [])
    (hs : sentencesOf A text = [s])
    (hl : localNouns A s = [subj])
    (hg : globalNouns A text = [subj]) :
    (∀ p : List Str, p.length < 3 →
      padPool p = p ++ List.replicate (3 - p.length) sentinel ∧
      (padPool p).length = 3) ∧
    ∃ m, generate_mcqs A R text k = [m] ∧
      m.choices.Perm (subj :: List.replicate 3 sentinel) := by
  have hchoose : chooseSubject R (globalNouns A text) 0 (localNouns A s)
      = some subj := by
    rw [hl, hg, chooseSubject]
    simp only [List.isEmpty_cons, Bool.false_and, Bool.not_false,
      Bool.false_eq_true, if_false, if_true]
    rw [mostCommon_of_nodup (List.nodup_singleton subj) (List.cons_ne_nil _ _)]
    rfl
  have hpool : distractorPool (localNouns A s) (globalNouns A text) subj
      = [] := by
    rw [hl, hg, distractorPool]
    simp
    rfl
  have hbuild : buildQuestion A R (globalNouns A text) 0 s
      = some (assembleQuestion R (localNouns A s) (globalNouns A text) 0 s
        subj) := by
    rw [buildQuestion, hchoose]
  constructor
  · intro p hp
    refine ⟨padPool_eq p, ?_⟩
    rw [padPool_length]
    omega
  · refine ⟨assembleQuestion R (localNouns A s) (globalNouns A text) 0 s subj,
      ?_, ?_⟩
    · rw [generate_mcqs, if_neg htext]
      simp only [hs]
      rw [if_neg (List.cons_ne_nil s [])]
      have hmin : min k ([s] : List Str).length = 1 := by
        simp only [List.length_singleton]
        omega
      rw [hmin, sample_singleton R s]
      show List.filterMap _ [(0, s)] = _
      rw [List.filterMap_cons, hbuild]
      rfl
    · have hperm := (assembleQuestion_spec R (localNouns A s)
        (globalNouns A text) 0 s subj).2.1
      rw [hpool] at hperm
      have hpad : padPool [] = List.replicate 3 sentinel := by
        rw [padPool_eq]
        rfl
      rw [hpad] at hperm
      have hshuf : R.shuffle (2 * 0) (List.replicate 3 sentinel)
          = List.replicate 3 sentinel := by
        have hp := R.shuffle_perm (2 * 0) (List.replicate 3 sentinel)
        refine List.eq_replicate_iff.mpr ⟨?_, fun b hb => ?_⟩
        · rw [hp.length_eq, List.length_replicate]
        · exact List.eq_of_mem_replicate (hp.mem_iff.mp hb)
      rw [hshuf] at hperm
      have htake : (List.replicate 3 sentinel).take 3
          = List.replicate 3 sentinel := rfl
      rw [htake] at hperm
      exact hperm

theorem C7_sentinel_padding_witness :
    1 ≤ 1 ∧ ("A cat.".toList : Str) ≠ [] ∧
    sentencesOf annotBasic ("A cat.".toList) = ["A cat.".toList] ∧
    localNouns annotBasic ("A cat.".toList) = ["cat".toList] ∧
    globalNouns annotBasic ("A cat.".toList) = ["cat".toList] ∧
    ((∀ p : List Str, p.length < 3 →
        padPool p = p ++ List.replicate (3 - p.length) sentinel ∧
        (padPool p).length = 3) ∧
      ∃ m, generate_mcqs annotBasic detRand ("A cat.".toList) 1 = [m] ∧
        m.choices.Perm ("cat".toList :: List.replicate 3 sentinel)) :=
  ⟨Nat.le_refl 1, by decide, by decide, by decide, by decide,
    C7_sentinel_padding annotBasic detRand ("A cat.".toList) ("A cat.".toList)
      ("cat".toList) 1 (Nat.le_refl 1) (by decide) (by decide) (by decide)
      (by decide)⟩
